import Mathlib

/-!
Shallow embedding of the deal orchestrator and result resolver of the
`cardrank` repository (`src/deck.go`), together with theorems settling the
frozen claims about it.  Go `int` fields that the code only ever stores
nonnegative values in are modelled as `Nat`; fields that legitimately hold
`-1` sentinels (`S`, `R`, `ST`, `E`) are modelled as `Int`.  A Go panic
(out-of-range slice index, `make` with a negative length) is modelled by
`Option` with `none` for the panic.
-/

set_option autoImplicit false

namespace Cardrank

/-- A playing card: an opaque external primitive, modelled by its numeric
encoding only (the dealer never inspects a card). -/
structure Card where
  val : Nat
deriving DecidableEq, Repr, Inhabited

/-- `Deck` from `deck.go`: draw cursor `I`, usable-length limit `L`, cards `V`. -/
structure Deck where
  I : Nat
  L : Nat
  V : List Card
deriving DecidableEq, Repr, Inhabited

/-- `DeckOf` from `deck.go`: a deck for the provided cards. -/
def deckOf (cards : List Card) : Deck :=
  { I := 0, L := cards.length, V := cards }

/-- `Deck.Reset` from `deck.go`: rewinds the cursor only. -/
def Deck.reset (d : Deck) : Deck :=
  { d with I := 0 }

/-- `Deck.Remaining` from `deck.go` (Go floors `L - I` at `0`; `Nat`
subtraction does the same). -/
def Deck.remaining (d : Deck) : Nat :=
  d.L - d.I

/-- The body of the collection loop of `Deck.Draw`, running `n` iterations
from index `i`: gathers `V[i], …, V[i+n-1]`.  Go panics when an index falls
out of range; that is modelled by `none`. -/
def drawLoopN (V : List Card) : Nat → Nat → Option (List Card)
  | _, 0 => some []
  | i, n + 1 => (V[i]?).bind fun c => (drawLoopN V (i + 1) n).map (fun cs => c :: cs)

/-- The collection loop of `Deck.Draw`: the cursor runs from `i` up to `l`
(`l - i` iterations, none when `i ≥ l`), gathering the cards it passes. -/
def drawLoop (V : List Card) (i l : Nat) : Option (List Card) :=
  drawLoopN V i (l - i)

/-- `Deck.Draw` from `deck.go`: a negative count yields an empty result
without advancing; otherwise the cursor runs from `I` to `min (I + count) L`,
collecting the cards it passes. -/
def Deck.draw (d : Deck) (count : Int) : Option (List Card × Deck) :=
  if count < 0 then some ([], d)
  else
    (drawLoop d.V d.I (min (d.I + count.toNat) d.L)).map
      (fun cs => (cs, { d with I := max d.I (min (d.I + count.toNat) d.L) }))

/-- One `swap(i, j)` callback issued by a shuffler to `Deck.Shuffle`.  The
shuffler is handed `len(V)`, so its indices are in range; an out-of-range
pair is modelled as a no-op. -/
def applySwap (V : List Card) (p : Nat × Nat) : List Card :=
  match V.get? p.1, V.get? p.2 with
  | some a, some b => (V.set p.1 b).set p.2 a
  | _, _ => V

/-- `Deck.Shuffle` from `deck.go`, with the shuffler abstracted by the swap
sequence it emits (all passes concatenated): permutes `V` in place, touching
neither the cursor nor the limit. -/
def Deck.shuffleSwaps (d : Deck) (ps : List (Nat × Nat)) : Deck :=
  { d with V := ps.foldl applySwap d.V }

/-- A sequence of `Deck.Draw` calls, returning every draw's result. -/
def drawSeq (d : Deck) : List Int → Option (List (List Card) × Deck)
  | [] => some ([], d)
  | c :: cs =>
    (d.draw c).bind fun p =>
      (drawSeq p.2 cs).map fun q => (p.1 :: q.1, q.2)

/-- `Run` from `deck.go`: discard pile, per-position pockets, hi and lo board. -/
structure Run where
  discard : List Card
  pockets : List (List Card)
  hi : List Card
  lo : List Card
deriving DecidableEq, Repr, Inhabited

/-- `NewRun` from `deck.go`: empty pockets for `count` positions. -/
def newRun (count : Nat) : Run :=
  { discard := [], pockets := List.replicate count [], hi := [], lo := [] }

/-- `Run.Dupe` from `deck.go`: copies the pockets and the Hi and Lo boards
(element-wise copies of lists are the lists themselves in a value model).
The `Discard` field is *not* copied: the fresh `Run` keeps a nil discard
pile. -/
def Run.dupe (run : Run) : Run :=
  { discard := [], pockets := run.pockets, hi := run.hi, lo := run.lo }

/-- A street descriptor (`StreetDesc` in the repository): an external,
pre-validated, read-only description of one street.  The Go count fields are
`int`; descriptors carry nonnegative counts and the code guards every use
with `0 < n`, so they are modelled as `Nat`. -/
structure StreetDesc where
  id : Nat
  name : String
  pocket : Nat
  pocketUp : Nat
  pocketDiscard : Nat
  pocketDraw : Nat
  board : Nat
  boardDiscard : Nat
deriving DecidableEq, Repr, Inhabited

/-- The slice of `TypeDesc` the dealer reads: the ordered street list, the
variant's `Max()` participant cap, and the `Low`/`Double` flags. -/
structure TypeDesc where
  streets : List StreetDesc
  max : Nat
  low : Bool
  double : Bool
deriving DecidableEq, Repr, Inhabited

/-- The slice of the external `Eval` record the dealer stores: a hi rank and
a lo rank under the evaluator's total order. -/
structure Eval where
  hiRank : Nat
  loRank : Nat
deriving DecidableEq, Repr, Inhabited

/-- `EvalOf(typ)`: a fresh, empty evaluation record. -/
def evalOf : Eval := ⟨0, 0⟩

/-- The external hand evaluator consumed by `Run.Eval` (the per-variant
registry `evals[typ]`, not under `src/`), abstracted as the rank function it
computes. -/
structure EvalEnv where
  evalF : List Card → List Card → Nat

/-- `Run.Eval` from `deck.go`: one evaluation per position, `none` for
inactive positions; for double variants the lo board's rank is attached to
the same record. -/
def Run.evalRun (run : Run) (env : EvalEnv) (dbl : Bool) (active : Finset Nat) :
    List (Option Eval) :=
  (List.range run.pockets.length).map fun i =>
    if i ∈ active then
      some { hiRank := env.evalF (run.pockets.getD i []) run.hi,
             loRank := if dbl then env.evalF (run.pockets.getD i []) run.lo else 0 }
    else none

/-- Stable insertion into a key-sorted list (strictly-less comparison keeps
equal keys in first-come order). -/
def insertKey (key : Nat → Nat) (x : Nat) : List Nat → List Nat
  | [] => [x]
  | y :: ys => if key y < key x then y :: insertKey key x ys else x :: y :: ys

/-- Modelled from the spec: the external ordering utility `Order(evs, low)`
(its code is not under `src/`) — a permutation of the evaluated position
indices sorted strongest first (smaller rank = stronger), paired with the
pivot, the size of the leading tie group; position-index stable among
ties. -/
def orderEvs (evs : List (Option Eval)) (low : Bool) : List Nat × Nat :=
  let key : Nat → Nat := fun i =>
    match evs.getD i none with
    | some e => if low then e.loRank else e.hiRank
    | none => 0
  let idxs := (List.range evs.length).filter fun i => (evs.getD i none).isSome
  let sorted := idxs.foldr (insertKey key) []
  match sorted with
  | [] => ([], 0)
  | a :: _ => (sorted, (sorted.takeWhile fun i => key i == key a).length)

/-- `Result` from `deck.go` (Go's nil slices are modelled as `[]`). -/
structure Result where
  evals : List (Option Eval)
  hiOrder : List Nat
  hiPivot : Nat
  loOrder : List Nat
  loPivot : Nat
deriving DecidableEq, Repr, Inhabited

/-- `NewResult` from `deck.go` on the non-calc path used by the dealer. -/
def newResult (env : EvalEnv) (td : TypeDesc) (run : Run) (active : Finset Nat) : Result :=
  let evs := run.evalRun env td.double active
  let hp := orderEvs evs false
  let lp := if td.low || td.double then orderEvs evs true else ([], 0)
  { evals := evs, hiOrder := hp.1, hiPivot := hp.2, loOrder := lp.1, loPivot := lp.2 }

/-- `Dealer` from `deck.go`.  `RunCount` is modelled as `Nat` (the code sets
it to `1` or to an accepted, necessarily positive `ChangeRuns` argument);
the street/run/result cursors keep their `-1` sentinels and stay `Int`. -/
structure Dealer where
  td : TypeDesc
  deck : Deck
  count : Nat
  active : Finset Nat
  runs : List Run
  results : Option (List Result)
  runCount : Nat
  ST : Int
  S : Int
  R : Int
  E : Int
deriving DecidableEq

/-- `NewDealer`/`init` from `deck.go`. -/
def newDealer (td : TypeDesc) (deck : Deck) (count : Nat) : Dealer :=
  { td := td, deck := deck, count := count, active := Finset.range count,
    runs := [newRun count], results := none, runCount := 1,
    ST := -1, S := -1, R := -1, E := -1 }

/-- `Dealer.HasActive` from `deck.go`: a started street, and either a
participant cap of one or more than one active position. -/
def Dealer.hasActive (d : Dealer) : Bool :=
  decide (0 ≤ d.S ∧ (d.td.max = 1 ∨ 1 < d.active.card))

/-- `Dealer.Deactivate` from `deck.go`: rejected once the run index is
neither `-1` nor `0`; otherwise removes the positions from the active set. -/
def Dealer.deactivate (d : Dealer) (positions : List Nat) : Bool × Dealer :=
  if d.R ≠ -1 ∧ d.R ≠ 0 then (false, d)
  else (true, { d with active := positions.foldl Finset.erase d.active })

/-- `Dealer.ChangeRuns` from `deck.go`.  Go's `make([]*Run, runs-1)` panics
for `runs < 1` once the state checks pass; the panic is modelled by `none`. -/
def Dealer.changeRuns (d : Dealer) (runs : Int) : Option (Bool × Dealer) :=
  if d.R ≠ 0 ∨ d.runCount ≠ 1 ∨ d.runs.length ≠ 1 ∨
      (d.td.streets.length : Int) ≤ d.S ∨ d.hasActive = false then
    some (false, d)
  else if runs < 1 then none
  else
    some (true,
      { d with
        runs := d.runs ++ List.replicate (runs - 1).toNat ((d.runs.getD 0 default).dupe),
        ST := d.S, runCount := runs.toNat })

/-- The inner loop of `Dealer.Deal`'s pocket rounds, dealing one card to
each of the positions `i, …, i+n-1` in ascending position order (note: the
code iterates over *all* `Count` positions, not only the active ones). -/
def dealRowN : Nat → Nat → Run × Deck → Option (Run × Deck)
  | _, 0, rd => some rd
  | i, n + 1, rd =>
    (rd.2.draw 1).bind fun p =>
      dealRowN (i + 1) n
        ({ rd.1 with pockets := rd.1.pockets.set i ((rd.1.pockets.getD i []) ++ p.1) }, p.2)

/-- One pocket round of `Dealer.Deal`: one card to every position slot. -/
def dealRow (count : Nat) (rd : Run × Deck) : Option (Run × Deck) :=
  dealRowN 0 count rd

/-- The pocket rounds of `Dealer.Deal` (`for range p`). -/
def dealPockets (count : Nat) : Nat → Run × Deck → Option (Run × Deck)
  | 0, rd => some rd
  | p + 1, rd => (dealRow count rd).bind (dealPockets count p)

/-- A guarded discard (`if 0 < n { run.Discard = append(run.Discard,
d.Deck.Draw(n)...) }`). -/
def burn (n : Nat) (run : Run) (deck : Deck) : Option (Run × Deck) :=
  if 0 < n then
    (deck.draw (n : Int)).map fun p => ({ run with discard := run.discard ++ p.1 }, p.2)
  else some (run, deck)

/-- The pocket section of `Dealer.Deal`: when the street deals pockets,
first the pocket discard, then the pocket rounds. -/
def dealStreetPockets (count : Nat) (desc : StreetDesc) (run : Run) (deck : Deck) :
    Option (Run × Deck) :=
  if 0 < desc.pocket then
    (burn desc.pocketDiscard run deck).bind fun rd =>
      dealPockets count desc.pocket rd
  else some (run, deck)

/-- The board section of `Dealer.Deal`: when the street deals board cards,
a board discard then the board draw into the hi board, and for double
variants an independent second discard-then-draw into the lo board. -/
def dealStreetBoard (td : TypeDesc) (desc : StreetDesc) (run : Run) (deck : Deck) :
    Option (Run × Deck) :=
  if 0 < desc.board then
    (burn desc.boardDiscard run deck).bind fun rd =>
      (rd.2.draw (desc.board : Int)).bind fun p =>
        if td.double then
          (burn desc.boardDiscard { rd.1 with hi := rd.1.hi ++ p.1 } p.2).bind fun rd2 =>
            (rd2.2.draw (desc.board : Int)).map fun q =>
              ({ rd2.1 with lo := rd2.1.lo ++ q.1 }, q.2)
        else some ({ rd.1 with hi := rd.1.hi ++ p.1 }, p.2)
  else some (run, deck)

/-- `Dealer.Deal` from `deck.go` for one street descriptor: the pocket
section followed by the board section. -/
def dealStreet (td : TypeDesc) (count : Nat) (desc : StreetDesc) (run : Run) (deck : Deck) :
    Option (Run × Deck) :=
  (dealStreetPockets count desc run deck).bind fun rd =>
    dealStreetBoard td desc rd.1 rd.2

/-- `Dealer.Next` from `deck.go`: advance the street (or start), terminate
when past the last street on the final run or without enough active
positions, hop to the next run when past the last street with runs
remaining, then deal the current street into the current run.  Go's
out-of-range indexing panics are modelled by `none` (via `Option.bind` on
the guarded lookups). -/
def Dealer.next (d : Dealer) : Option (Bool × Dealer) :=
  let d1 := if d.S = -1 ∧ d.R = -1 then { d with S := 0, R := 0 }
            else { d with S := d.S + 1 }
  let n : Int := d1.td.streets.length
  if (n ≤ d1.S ∧ d1.R = (d1.runCount : Int) - 1) ∨ d1.hasActive = false then
    some (false, d1)
  else
    let d2 := if n ≤ d1.S ∧ d1.R < (d1.runCount : Int) then
                { d1 with S := d1.ST + 1, R := d1.R + 1 }
              else d1
    (d2.td.streets.get? d2.S.toNat).bind fun desc =>
      (d2.runs.get? d2.R.toNat).bind fun run =>
        (dealStreet d2.td d2.count desc run d2.deck).map fun rd =>
          (decide (d2.S < n ∨ d2.R < (d2.runCount : Int) - 1),
           { d2 with runs := d2.runs.set d2.R.toNat rd.1, deck := rd.2 })

/-- The state after `k` calls to `Next` (propagating a panic). -/
def nextN : Nat → Dealer → Option Dealer
  | 0, d => some d
  | k + 1, d => (nextN k d).bind fun d2 => (d2.next).map Prod.snd

/-- The first active position (`for i < Count && !Active[i] { i++ }`). -/
def findFirstActive (count : Nat) (active : Finset Nat) : Nat :=
  (((List.range count).find? fun i => decide (i ∈ active)).getD count)

/-- The trivial single-winner result `NextResult` builds when exactly one
position is active with a single run and a participant cap above one. -/
def Dealer.trivialResult (d : Dealer) : Result :=
  { evals := [some evalOf], hiOrder := [findFirstActive d.count d.active], hiPivot := 1,
    loOrder := if d.td.low || d.td.double then [findFirstActive d.count d.active] else [],
    loPivot := if d.td.low || d.td.double then 1 else 0 }

/-- The value of the dealer's `Results` field after the lazy computation at
the head of `NextResult`: while `Results` is nil, the trivial single-winner
result when exactly one position is active with one run and a cap above
one, the full per-run results when more than one position is active or the
cap is one, and *nothing at all* otherwise; once computed, unchanged. -/
def Dealer.computeResults (env : EvalEnv) (d : Dealer) : Option (List Result) :=
  if d.results = none then
    if d.active.card = 1 ∧ d.runCount = 1 ∧ d.td.max ≠ 1 then
      some [d.trivialResult]
    else if 1 < d.active.card ∨ d.td.max = 1 then
      some ((List.range d.runCount).map fun i =>
        newResult env d.td (d.runs.getD i default) d.active)
    else none
  else d.results

/-- `Dealer.NextResult` from `deck.go`: the lazy results computation
(`Dealer.computeResults`), then the cursor advance. -/
def Dealer.nextResult (env : EvalEnv) (d : Dealer) : Bool × Dealer :=
  let d := { d with results := d.computeResults env }
  if (d.runCount : Int) ≤ d.E then (false, d)
  else (decide (d.E + 1 < (d.runCount : Int)), { d with E := d.E + 1 })

/-- The state after `k` calls to `NextResult`. -/
def nrN (env : EvalEnv) : Nat → Dealer → Dealer
  | 0, d => d
  | k + 1, d => (Dealer.nextResult env (nrN env k d)).2

/-- `Dealer.Result` from `deck.go`: the result cursor and the result it
points at.  Go's `d.Results[d.E]` panics when the results slice is nil or
short; the unavailable result is modelled by a `none` second component. -/
def Dealer.result (d : Dealer) : Int × Option Result :=
  if 0 ≤ d.E ∧ d.E < (d.runCount : Int) then
    (d.E, (d.results.getD []).get? d.E.toNat)
  else (-1, none)

/-- The slice of the external `EvalDesc` record `Win` reads: the rank
marker of the best description. -/
structure EvalDesc where
  rank : Nat
deriving DecidableEq, Repr, Inhabited

/-- Modelled from the spec: the external evaluator's `Invalid` rank marker
(a constant of the evaluator, not under `src/`; only its identity
matters here). -/
def invalidRank : Nat := 65535

/-- Modelled from the spec: the external `Eval.Desc(low)` (not under
`src/`) — the description carrying the hi or the lo rank; absent (Go
`nil`) for an absent evaluation. -/
def descOf (e : Option Eval) (low : Bool) : Option EvalDesc :=
  e.map fun ev => ⟨if low then ev.loRank else ev.hiRank⟩

/-- `Win` from `deck.go` (the display names are irrelevant to the claims
and omitted). -/
structure Win where
  evals : List (Option Eval)
  order : List Nat
  pivot : Int
  low : Bool
  scoop : Bool
deriving DecidableEq

/-- `Win.Invalid` from `deck.go`.  Note that the guard cases — zero pivot,
empty evaluation list, empty order — return `false`.  The indexing
`win.Evals[win.Order[0]]` is reached only past those guards; a position
index beyond the evaluation list yields an absent description here where Go
would panic (no claim exercises that path). -/
def Win.invalid (win : Win) : Bool :=
  if win.pivot = 0 ∨ win.evals.length = 0 ∨ win.order.length = 0 then false
  else
    match descOf (win.evals.getD (win.order.getD 0 0) none) win.low with
    | none => true
    | some d => (d.rank == 0) || (d.rank == invalidRank)

/-- `Win.Verb` from `deck.go`. -/
def Win.verb (win : Win) : String :=
  if win.scoop then "scoops"
  else if 2 < win.pivot then "push"
  else if win.pivot = 2 then "split"
  else if win.pivot = 0 then "none"
  else "wins"

/-- The verb assignment claim C9 describes, transcribed from its wording:
"scoops" whenever the scoop flag is set, regardless of the pivot; otherwise
"push" for a pivot of three or more (a tie among three or more winners),
"split" for a pivot of exactly two, "none" for a pivot of zero, and "wins"
otherwise. -/
def verbClaimed (win : Win) : String :=
  if win.scoop then "scoops"
  else if 3 ≤ win.pivot then "push"
  else if win.pivot = 2 then "split"
  else if win.pivot = 0 then "none"
  else "wins"

/-- `Dealer.Deal` folded over a list of streets in order, threading run and
deck. -/
def dealFold (td : TypeDesc) (count : Nat) : List StreetDesc → Run × Deck → Option (Run × Deck)
  | [], rd => some rd
  | s :: ss, rd => (dealStreet td count s rd.1 rd.2).bind (dealFold td count ss)

/-- The dealer state expected after `k` calls to `Next` on a fresh
single-run dealer: streets `0, …, k-1` dealt in order into the sole run. -/
def c1State (td : TypeDesc) (deck : Deck) (count : Nat) (k : Nat) : Option Dealer :=
  (dealFold td count (td.streets.take k) (newRun count, deck)).map fun rd =>
    { newDealer td deck count with
      S := (k : Int) - 1, R := if k = 0 then -1 else 0, runs := [rd.1], deck := rd.2 }

/-! ### Concrete inputs used by the witnesses and counterexamples -/

/-- A small concrete deck for the C7 witness. -/
def c7deck : Deck := deckOf [⟨0⟩, ⟨1⟩, ⟨2⟩]

/-- The deck whose last shuffle happened with a nonzero cursor, for the C8
counterexample: one card is drawn from `[⟨0⟩, ⟨1⟩]`, then the shuffler swaps
the two cards (shuffling does not reset the cursor). -/
def c8deck : Deck :=
  (((deckOf [⟨0⟩, ⟨1⟩]).draw 1).getD ([], deckOf [⟨0⟩, ⟨1⟩])).2.shuffleSwaps [(0, 1)]

/-- A concrete deck for the C8 witness. -/
def c8wdeck : Deck := deckOf [⟨4⟩, ⟨5⟩]

/-- A run with a nonempty discard pile for the C3 counterexample. -/
def c3run : Run :=
  { discard := [⟨7⟩], pockets := [[⟨1⟩], [⟨2⟩]], hi := [⟨3⟩], lo := [] }

/-- A plain pocket street: one pocket card, no discards, no board. -/
def pocketStreet : StreetDesc :=
  { id := 1, name := "pocket", pocket := 1, pocketUp := 0, pocketDiscard := 0,
    pocketDraw := 0, board := 0, boardDiscard := 0 }

/-- A board street: a one-card burn then a two-card board, no pockets. -/
def boardStreet : StreetDesc :=
  { id := 2, name := "board", pocket := 0, pocketUp := 0, pocketDiscard := 1,
    pocketDraw := 0, board := 2, boardDiscard := 1 }

/-- A pocket street with a one-card burn before the pockets. -/
def burnPocketStreet : StreetDesc :=
  { id := 3, name := "burnpocket", pocket := 1, pocketUp := 0, pocketDiscard := 1,
    pocketDraw := 0, board := 0, boardDiscard := 0 }

/-- A concrete twelve-card deck. -/
def deck12 : Deck := deckOf ((List.range 12).map fun n => ⟨n⟩)

/-- A trivial concrete evaluation environment (every hand ranks `0`). -/
def envZero : EvalEnv := { evalF := fun _ _ => 0 }

/-- C1 counterexample input: a single-position dealer (nobody deactivated)
for a one-street variant whose participant cap is above one. -/
def c1d0 : Dealer :=
  newDealer { streets := [pocketStreet], max := 8, low := false, double := false } deck12 1

/-- C1 witness input: a two-street variant with a participant cap above
one. -/
def c1wtd : TypeDesc :=
  { streets := [pocketStreet, boardStreet], max := 8, low := false, double := false }

/-- C1 witness input: a fresh two-position dealer for the two-street
variant. -/
def c1w0 : Dealer := newDealer c1wtd deck12 2

/-- C2 failing input, step 0: a fresh three-position dealer for a one-street
pocket variant. -/
def c2d0 : Dealer :=
  newDealer { streets := [pocketStreet], max := 8, low := false, double := false } deck12 3

/-- C2 failing input, step 1: position 2 deactivated before any dealing. -/
def c2d1 : Dealer := (c2d0.deactivate [2]).2

/-- C4/C5 input, step 0: a fresh two-position dealer whose first street
burns one card before the pockets (so the sole run's discard pile is
nonempty at the branch point). -/
def c4d0 : Dealer :=
  newDealer { streets := [burnPocketStreet, boardStreet], max := 8, low := false, double := false }
    deck12 2

/-- C4/C5 input, step 1: the first street dealt (`R = 0`, discard `[⟨0⟩]`). -/
def c4d1 : Dealer := ((c4d0.next).getD (false, c4d0)).2

/-- C5 input, step 2: the hand split into two runs (`ChangeRuns 2`). -/
def c5d2 : Dealer := ((c4d1.changeRuns 2).getD (false, c4d1)).2

/-- C10 counterexample input: after the split, position 1 deactivated (the
call still succeeds, `R` being `0`), leaving one active position with two
runs and a participant cap above one. -/
def c10d3 : Dealer := (c5d2.deactivate [1]).2

/-- C10 witness input: a fresh two-position dealer (one run, two active
positions). -/
def c10w0 : Dealer := c1w0

/-- C6 failing input: a `Win` with a nonempty evaluation list and order but
a zero pivot. -/
def c6winA : Win :=
  { evals := [some ⟨5, 9⟩], order := [0], pivot := 0, low := false, scoop := false }

/-- C6 second failing input: a `Win` with empty evaluation and order lists. -/
def c6winB : Win :=
  { evals := [], order := [], pivot := 3, low := false, scoop := false }


/-- C4 witness input: the dealer `c4d1` split into three runs. -/
def c4w2 : Dealer := ((c4d1.changeRuns 3).getD (false, c4d1)).2

/-! ### Basic facts about `Deck.draw` -/

theorem drawLoopN_eq (V : List Card) :
    ∀ (n i : Nat), i + n ≤ V.length →
      drawLoopN V i n = some ((V.drop i).take n) := by
  intro n
  induction n with
  | zero =>
    intro i _
    simp [drawLoopN]
  | succ n ih =>
    intro i h
    have hiv : i < V.length := by omega
    rw [drawLoopN, List.getElem?_eq_getElem hiv, Option.some_bind,
      ih (i + 1) (by omega), Option.map_some']
    rw [List.drop_eq_getElem_cons hiv, List.take_succ_cons]

theorem drawLoop_eq (V : List Card) (i l : Nat) (h : l ≤ V.length) :
    drawLoop V i l = some ((V.drop i).take (l - i)) := by
  rw [drawLoop]
  by_cases hil : i < l
  · exact drawLoopN_eq V (l - i) i (by omega)
  · have h0 : l - i = 0 := by omega
    simp [h0, drawLoopN]

/-- A successful draw changes neither the card sequence nor the limit. -/
theorem Deck.draw_V_L (d : Deck) (c : Int) (cs : List Card) (d2 : Deck)
    (h : d.draw c = some (cs, d2)) : d2.V = d.V ∧ d2.L = d.L := by
  unfold Deck.draw at h
  split at h
  · simp only [Option.some.injEq, Prod.mk.injEq] at h
    rw [← h.2]
    exact ⟨rfl, rfl⟩
  · rcases Option.map_eq_some'.mp h with ⟨x, _hx, he⟩
    simp only [Prod.mk.injEq] at he
    rw [← he.2]
    exact ⟨rfl, rfl⟩

/-- A successful draw sequence changes neither the card sequence nor the
limit. -/
theorem drawSeq_V_L :
    ∀ (cs : List Int) (d : Deck) (out : List (List Card)) (d2 : Deck),
      drawSeq d cs = some (out, d2) → d2.V = d.V ∧ d2.L = d.L := by
  intro cs
  induction cs with
  | nil =>
    intro d out d2 h
    simp only [drawSeq, Option.some.injEq, Prod.mk.injEq] at h
    rw [← h.2]
    exact ⟨rfl, rfl⟩
  | cons c cs ih =>
    intro d out d2 h
    simp only [drawSeq] at h
    rcases Option.bind_eq_some.mp h with ⟨⟨x, dmid⟩, hdraw, hrest⟩
    rcases Option.map_eq_some'.mp hrest with ⟨⟨ys, dlast⟩, hseq, he⟩
    have h1 := Deck.draw_V_L d c x dmid hdraw
    have h2 := ih dmid ys dlast hseq
    simp only [Prod.mk.injEq] at he
    obtain ⟨-, he2⟩ := he
    subst he2
    exact ⟨h2.1.trans h1.1, h2.2.trans h1.2⟩

/-! ### Claims C7, C8, C3 -/

/-- Claim C7: for every deck satisfying the data-model invariant
(`drawn ≤ usableLength ≤ total length`) and every integer count, `Draw`
returns an empty result for a negative count, and otherwise returns the
next `min count remaining` undrawn cards in sequence order, advancing the
cursor by exactly the number of cards returned and never past the usable
length; it never faults (always returns `some`). -/
theorem c7_draw_spec (d : Deck) (count : Int)
    (h1 : d.I ≤ d.L) (h2 : d.L ≤ d.V.length) :
    (count < 0 → d.draw count = some ([], d)) ∧
    (0 ≤ count →
      d.draw count =
        some ((d.V.drop d.I).take (min count.toNat d.remaining),
              { d with I := d.I + min count.toNat d.remaining }) ∧
      ((d.V.drop d.I).take (min count.toNat d.remaining)).length
          = min count.toNat d.remaining ∧
      d.I + min count.toNat d.remaining ≤ d.L) := by
  constructor
  · intro hneg
    simp [Deck.draw, hneg]
  · intro hpos
    have hnn : ¬ count < 0 := by omega
    have hl : min (d.I + count.toNat) d.L ≤ d.V.length := by omega
    refine ⟨?_, ?_, ?_⟩
    · rw [Deck.draw, if_neg hnn, drawLoop_eq _ _ _ hl]
      simp only [Option.map_some']
      have e1 : min (d.I + count.toNat) d.L - d.I = min count.toNat d.remaining := by
        unfold Deck.remaining
        omega
      have e2 : max d.I (min (d.I + count.toNat) d.L)
          = d.I + min count.toNat d.remaining := by
        unfold Deck.remaining
        omega
      rw [e1, e2]
    · rw [List.length_take, List.length_drop]
      unfold Deck.remaining
      omega
    · unfold Deck.remaining
      omega

/-- Witness for C7 at a concrete deck and count. -/
theorem c7_draw_spec_witness :
    (c7deck.I ≤ c7deck.L ∧ c7deck.L ≤ c7deck.V.length ∧ (0 : Int) ≤ 2) ∧
    (c7deck.draw 2 =
        some ((c7deck.V.drop c7deck.I).take (min (Int.toNat 2) c7deck.remaining),
              { c7deck with I := c7deck.I + min (Int.toNat 2) c7deck.remaining }) ∧
      ((c7deck.V.drop c7deck.I).take (min (Int.toNat 2) c7deck.remaining)).length
          = min (Int.toNat 2) c7deck.remaining ∧
      c7deck.I + min (Int.toNat 2) c7deck.remaining ≤ c7deck.L) :=
  ⟨⟨by decide, by decide, by decide⟩,
   (c7_draw_spec c7deck 2 (by decide) (by decide)).2 (by decide)⟩

/-- Claim C8 (amended): provided the cursor stood at zero immediately after
the last shuffle (true of every deck as constructed, since all constructors
shuffle fresh decks), `Reset` after any successful draw sequence restores
exactly the post-shuffle deck, so repeating any sequence of draws yields the
same cards in the same order; `Reset` never permutes the card sequence. -/
theorem c8_amended (d : Deck) (cs : List Int) (out : List (List Card)) (d1 : Deck)
    (h0 : d.I = 0) (h : drawSeq d cs = some (out, d1)) :
    d1.reset = d ∧
    (∀ cs2 : List Int, drawSeq d1.reset cs2 = drawSeq d cs2) ∧
    d1.reset.V = d1.V := by
  obtain ⟨hV, hL⟩ := drawSeq_V_L cs d out d1 h
  have hr : d1.reset = d := by
    cases d with
    | mk dI dL dV =>
      cases d1 with
      | mk eI eL eV =>
        simp only [Deck.reset]
        simp only at hV hL h0
        rw [hV, hL, h0]
  exact ⟨hr, fun cs2 => by rw [hr], rfl⟩

/-- Counterexample to C8 as stated: for a deck whose cursor was nonzero at
its last shuffle, the draws performed immediately after that shuffle return
`[[⟨0⟩]]`, while resetting and repeating the same draw calls returns
`[[⟨1⟩]]` — not the same cards. -/
theorem c8_counterexample :
    (drawSeq c8deck [1]).map Prod.fst = some [[⟨0⟩]] ∧
    (drawSeq (((drawSeq c8deck [1]).getD ([], c8deck)).2.reset) [1]).map Prod.fst
      = some [[⟨1⟩]] ∧
    (drawSeq (((drawSeq c8deck [1]).getD ([], c8deck)).2.reset) [1]).map Prod.fst
      ≠ (drawSeq c8deck [1]).map Prod.fst := by
  refine ⟨by decide, by decide, by decide⟩

/-- Witness for C8 (amended) at a concrete deck and draw sequence. -/
theorem c8_amended_witness :
    (c8wdeck.I = 0 ∧
      drawSeq c8wdeck [1, 1] = some ([[⟨4⟩], [⟨5⟩]], { I := 2, L := 2, V := [⟨4⟩, ⟨5⟩] })) ∧
    (Deck.reset { I := 2, L := 2, V := [⟨4⟩, ⟨5⟩] } = c8wdeck ∧
      (∀ cs2 : List Int,
        drawSeq (Deck.reset { I := 2, L := 2, V := [⟨4⟩, ⟨5⟩] }) cs2 = drawSeq c8wdeck cs2) ∧
      (Deck.reset { I := 2, L := 2, V := [⟨4⟩, ⟨5⟩] }).V = Deck.V { I := 2, L := 2, V := [⟨4⟩, ⟨5⟩] }) :=
  ⟨⟨by decide, by decide⟩,
   c8_amended c8wdeck [1, 1] [[⟨4⟩], [⟨5⟩]] { I := 2, L := 2, V := [⟨4⟩, ⟨5⟩] }
     (by decide) (by decide)⟩

/-- Claim C3 (amended): `Dupe` returns a run whose per-position pockets, hi
board, and lo board are equal by content to the original's (independent by
construction in a value model), and whose discard pile is empty — the
discard pile is not copied. -/
theorem c3_amended (run : Run) :
    (run.dupe).pockets = run.pockets ∧ (run.dupe).hi = run.hi ∧
    (run.dupe).lo = run.lo ∧ (run.dupe).discard = [] :=
  ⟨rfl, rfl, rfl, rfl⟩

/-- Counterexample to C3 as stated: duplicating a run with a nonempty
discard pile does not preserve the discard pile by content. -/
theorem c3_counterexample : (c3run.dupe).discard ≠ c3run.discard := by decide

/-! ### Claims C9 and C6 -/

/-- Claim C9: `Verb` returns "scoops" whenever the scoop flag is set,
regardless of the pivot; otherwise "push" for a pivot above two, "split"
for a pivot of exactly two, "none" for a pivot of zero, and "wins"
otherwise — a tie among three or more winners is reported as "push", not
"split". -/
theorem c9_verb_spec (win : Win) : win.verb = verbClaimed win := by
  unfold Win.verb verbClaimed
  split_ifs <;> first | rfl | omega

/-- Claim C6, code behavior at the failing inputs: a `Win` with a zero
pivot — by the claim (and by `Invalid`'s own documentation, "returns true
when there are no valid winners") an invalid win — nevertheless gets
`Invalid() = false`; likewise a `Win` with empty evaluation and order
lists.  The code's guard cases return `false` where the claim says
`true`. -/
theorem c6_code_eval : c6winA.invalid = false ∧ c6winB.invalid = false := by
  refine ⟨by decide, by decide⟩

/-! ### Claim C2 -/

/-- Claim C2, code behavior at the failing input: position 2 is deactivated
before any card is dealt (the `Deactivate` call succeeds and the active set
becomes `{0, 1}`), yet dealing the one-card pocket street appends a card to
position 2's pocket — `Deal` iterates over all `Count` positions, ignoring
the active set, contradicting `Deactivate`'s documentation that deactivated
positions "will not be dealt further cards". -/
theorem c2_code_eval :
    (c2d0.deactivate [2]).1 = true ∧
    c2d1.active = ({0, 1} : Finset Nat) ∧
    (c2d1.next).map (fun p => p.2.runs.map Run.pockets)
      = some [[[⟨0⟩], [⟨1⟩], [⟨2⟩]]] := by
  refine ⟨by decide, by decide, ?_⟩
  decide

/-! ### Counterexamples for claims C1, C4, C5, C10 -/

/-- Counterexample to C1 as stated: a dealer over a single run with no
positions deactivated (a lone position, participant cap above one, one
street) — the very first `Next` call returns `false` and deals nothing, so
the variant's street is never dealt. -/
theorem c1_counterexample :
    c1d0.td.streets.length = 1 ∧
    c1d0.active = Finset.range c1d0.count ∧
    (c1d0.next).map (fun p => (p.1, p.2.runs, p.2.deck)) = some (false, c1d0.runs, c1d0.deck) ∧
    ((nextN 3 c1d0).map fun d => (d.runs, d.deck)) = some (c1d0.runs, c1d0.deck) := by
  refine ⟨by decide, by decide, by decide, by decide⟩

/-- Counterexample to C4 as stated: a dealer satisfying all of the claim's
stated conditions, where `ChangeRuns 0` faults (Go panics in
`make([]*Run, -1)`) instead of returning `true` with a zero-length run
list, and where `ChangeRuns 2` appends a copy whose discard pile is empty
rather than equal to the sole run's nonempty discard pile — the appended
runs are not full deep copies. -/
theorem c4_counterexample :
    (c4d1.R = 0 ∧ c4d1.runCount = 1 ∧ c4d1.runs.length = 1 ∧
      c4d1.S < (c4d1.td.streets.length : Int) ∧ c4d1.hasActive = true) ∧
    c4d1.changeRuns 0 = none ∧
    ((c4d1.changeRuns 2).map fun p => p.2.runs.map Run.discard) = some [[⟨0⟩], []] ∧
    ([] : List Card) ≠ [⟨0⟩] := by
  refine ⟨by decide, by decide, by decide, by decide⟩

/-- Counterexample to C5 as stated: after `ChangeRuns` has successfully
split the hand into two runs, `Deactivate` still returns `true` and changes
the active set (the run index is still `0`). -/
theorem c5_counterexample :
    c4d1.changeRuns 2 = some (true, c5d2) ∧
    c5d2.runCount = 2 ∧
    (c5d2.deactivate [1]).1 = true ∧
    (c5d2.deactivate [1]).2.active ≠ c5d2.active := by
  refine ⟨by decide, by decide, by decide, by decide⟩

/-- Counterexample to C10 as stated: a dealer with one active position, two
runs, and a participant cap above one (reached through `ChangeRuns` followed
by the still-permitted `Deactivate`).  `NextResult` returns `true`, yet no
results list is ever computed and `Result` has no result to return (Go would
panic indexing the nil results slice). -/
theorem c10_counterexample :
    c10d3.active.card = 1 ∧ c10d3.runCount = 2 ∧ c10d3.td.max ≠ 1 ∧
    (c10d3.nextResult envZero).1 = true ∧
    (c10d3.nextResult envZero).2.results = none ∧
    ((c10d3.nextResult envZero).2.result) = (0, none) := by
  refine ⟨by decide, by decide, by decide, by decide, by decide, by decide⟩

/-! ### Claims C4 and C5, amended -/

/-- Claim C4 (amended): for every `n ≥ 1`, `ChangeRuns n` returns `false`
and leaves the state unchanged unless the run index is `0`, `RunCount` and
the run-list length are `1`, the street index is strictly below the street
count, and `HasActive` holds; when those conditions hold it returns `true`,
appends `n - 1` copies of the sole run — each copying the pockets and both
boards but starting with an empty discard pile — so the run list has length
`n`, records the street index as `ST`, and sets `RunCount` to `n`.  (For
`n ≤ 0` under the same conditions the code faults, and the appended runs
are not full deep copies of the discard pile; see the counterexample.) -/
theorem c4_amended (d : Dealer) (n : Int) (h : 1 ≤ n) :
    (d.changeRuns n =
      if d.R = 0 ∧ d.runCount = 1 ∧ d.runs.length = 1 ∧
          d.S < (d.td.streets.length : Int) ∧ d.hasActive = true then
        some (true,
          { d with
            runs := d.runs ++ List.replicate (n - 1).toNat ((d.runs.getD 0 default).dupe),
            ST := d.S, runCount := n.toNat })
      else some (false, d)) ∧
    (∀ d2, d.changeRuns n = some (true, d2) →
      d2.runs.length = n.toNat ∧ d2.ST = d.S ∧ d2.runCount = n.toNat ∧
      ∀ i, 1 ≤ i → i < n.toNat →
        d2.runs.get? i = some ((d.runs.getD 0 default).dupe)) := by
  have hn1 : ¬ n < 1 := by omega
  have hmain : d.changeRuns n =
      if d.R = 0 ∧ d.runCount = 1 ∧ d.runs.length = 1 ∧
          d.S < (d.td.streets.length : Int) ∧ d.hasActive = true then
        some (true,
          { d with
            runs := d.runs ++ List.replicate (n - 1).toNat ((d.runs.getD 0 default).dupe),
            ST := d.S, runCount := n.toNat })
      else some (false, d) := by
    unfold Dealer.changeRuns
    by_cases hc : d.R = 0 ∧ d.runCount = 1 ∧ d.runs.length = 1 ∧
        d.S < (d.td.streets.length : Int) ∧ d.hasActive = true
    · obtain ⟨h1, h2, h3, h4, h5⟩ := hc
      rw [if_neg, if_neg hn1, if_pos ⟨h1, h2, h3, h4, h5⟩]
      push_neg
      refine ⟨h1, h2, h3, h4, ?_⟩
      rw [h5]
      simp
    · rw [if_pos, if_neg hc]
      by_contra hg
      push_neg at hg
      obtain ⟨g1, g2, g3, g4, g5⟩ := hg
      exact hc ⟨g1, g2, g3, by omega, by simpa using g5⟩
  refine ⟨hmain, ?_⟩
  intro d2 h2
  rw [hmain] at h2
  split at h2
  · next hc =>
    simp only [Option.some.injEq, Prod.mk.injEq] at h2
    obtain ⟨-, h2⟩ := h2
    subst h2
    refine ⟨?_, rfl, rfl, ?_⟩
    · simp only [List.length_append, List.length_replicate, hc.2.2.1]
      omega
    · intro i h1i hin
      rw [List.get?_eq_getElem?, List.getElem?_append_right (by omega : d.runs.length ≤ i)]
      rw [List.getElem?_replicate, if_pos (by omega)]
  · simp at h2

/-- Witness for C4 (amended) at a concrete dealer and `n = 3`. -/
theorem c4_amended_witness :
    ((1 : Int) ≤ 3 ∧ c4d1.changeRuns 3 = some (true, c4w2)) ∧
    (c4w2.runs.length = (3 : Int).toNat ∧ c4w2.ST = c4d1.S ∧
      c4w2.runCount = (3 : Int).toNat) ∧
    c4w2.runs.get? 1 = some ((c4d1.runs.getD 0 default).dupe) := by
  have h := (c4_amended c4d1 3 (by decide)).2 c4w2 (by decide)
  exact ⟨⟨by decide, by decide⟩, ⟨h.1, h.2.1, h.2.2.1⟩, h.2.2.2 1 (by decide) (by decide)⟩

/-- Claim C5 (amended): `ChangeRuns` leaves the run index untouched, so
immediately after a successful split the run index is still `0` and
`Deactivate` continues to return `true` and mutate the active set;
`Deactivate` returns `false` and leaves the dealer unchanged exactly when
the run index is neither `-1` nor `0` — that is, only once `Next` has
advanced into a run after the first. -/
theorem c5_amended (d : Dealer) (ps : List Nat) :
    (d.deactivate ps =
      if d.R ≠ -1 ∧ d.R ≠ 0 then (false, d)
      else (true, { d with active := ps.foldl Finset.erase d.active })) ∧
    (∀ n d2, d.changeRuns n = some (true, d2) →
      d2.R = 0 ∧ ∀ qs : List Nat, (d2.deactivate qs).1 = true) := by
  refine ⟨rfl, ?_⟩
  intro n d2 h
  unfold Dealer.changeRuns at h
  split at h
  · simp at h
  · next hg =>
    push_neg at hg
    split at h
    · exact absurd h (by simp)
    · simp only [Option.some.injEq, Prod.mk.injEq] at h
      obtain ⟨-, h2⟩ := h
      subst h2
      refine ⟨hg.1, ?_⟩
      intro qs
      unfold Dealer.deactivate
      rw [if_neg]
      simp only [hg.1]
      simp

/-- Witness for C5 (amended) at a concrete dealer, split, and positions. -/
theorem c5_amended_witness :
    (c4d1.deactivate [0] =
      if c4d1.R ≠ -1 ∧ c4d1.R ≠ 0 then (false, c4d1)
      else (true, { c4d1 with active := [0].foldl Finset.erase c4d1.active })) ∧
    c4d1.changeRuns 2 = some (true, c5d2) ∧
    c5d2.R = 0 ∧ (c5d2.deactivate [1]).1 = true := by
  have h := (c5_amended c4d1 [0]).2 2 c5d2 (by decide)
  exact ⟨(c5_amended c4d1 [0]).1, by decide, h.1, h.2 [1]⟩

/-! ### Claim C10, amended -/

/-- Under the amended C10 hypotheses the lazy computation produces a
results list of length `RunCount`. -/
theorem computeResults_spec (env : EvalEnv) (d : Dealer)
    (hres : d.results = none) (hrc : 1 ≤ d.runCount)
    (ha : 1 ≤ d.active.card ∨ d.td.max = 1)
    (hx : 2 ≤ d.active.card ∨ d.td.max = 1 ∨ d.runCount = 1) :
    ∃ rs : List Result, d.computeResults env = some rs ∧ rs.length = d.runCount := by
  unfold Dealer.computeResults
  rw [if_pos hres]
  by_cases hA : d.active.card = 1 ∧ d.runCount = 1 ∧ d.td.max ≠ 1
  · rw [if_pos hA]
    exact ⟨_, rfl, by simp [hA.2.1]⟩
  · have hB : 1 < d.active.card ∨ d.td.max = 1 := by
      by_cases hm : d.td.max = 1
      · exact Or.inr hm
      · left
        rcases hx with hx | hx | hx
        · omega
        · exact absurd hx hm
        · rcases ha with ha | ha
          · by_contra hlt
            exact hA ⟨by omega, hx, hm⟩
          · exact absurd ha hm
    rw [if_neg hA, if_pos hB]
    exact ⟨_, rfl, by simp⟩

/-- `NextResult`, rephrased through the value of the lazy results
computation. -/
theorem nextResult_eq (env : EvalEnv) (d : Dealer) (rs : List Result)
    (hcomp : d.computeResults env = some rs) :
    Dealer.nextResult env d =
      if (d.runCount : Int) ≤ d.E then (false, { d with results := some rs })
      else (decide (d.E + 1 < (d.runCount : Int)),
            { d with results := some rs, E := d.E + 1 }) := by
  unfold Dealer.nextResult
  rw [hcomp]

/-- The first `NextResult` call on a pre-iteration dealer covered by the
amended C10 hypotheses computes a results list of length `RunCount`,
advances the cursor to `0`, and returns `true`. -/
theorem nr_first (env : EvalEnv) (d : Dealer)
    (hres : d.results = none) (hE : d.E = -1) (hrc : 1 ≤ d.runCount)
    (ha : 1 ≤ d.active.card ∨ d.td.max = 1)
    (hx : 2 ≤ d.active.card ∨ d.td.max = 1 ∨ d.runCount = 1) :
    ∃ rs : List Result, rs.length = d.runCount ∧
      Dealer.nextResult env d = (true, { d with results := some rs, E := 0 }) := by
  obtain ⟨rs, hcomp, hlen⟩ := computeResults_spec env d hres hrc ha hx
  refine ⟨rs, hlen, ?_⟩
  have hneg : ¬ ((d.runCount : Int) ≤ d.E) := by omega
  rw [nextResult_eq env d rs hcomp, if_neg hneg]
  have hE0 : d.E + 1 = 0 := by omega
  congr 1
  · exact decide_eq_true (by omega)
  · rw [hE0]

/-- A `NextResult` call on a dealer whose results are already computed only
moves the cursor. -/
theorem nr_step (env : EvalEnv) (e : Dealer) (rs : List Result)
    (hr : e.results = some rs) :
    Dealer.nextResult env e =
      if (e.runCount : Int) ≤ e.E then (false, e)
      else (decide (e.E + 1 < (e.runCount : Int)), { e with E := e.E + 1 }) := by
  have hcomp : e.computeResults env = some rs := by
    unfold Dealer.computeResults
    rw [hr]
    simp
  rw [nextResult_eq env e rs hcomp, ← hr]

/-- Closed form of the `NextResult` iteration under the amended C10
hypotheses: after `k + 1` calls the results are computed and the cursor
stands at `min k RunCount`. -/
theorem nrN_closed (env : EvalEnv) (d : Dealer)
    (hres : d.results = none) (hE : d.E = -1) (hrc : 1 ≤ d.runCount)
    (ha : 1 ≤ d.active.card ∨ d.td.max = 1)
    (hx : 2 ≤ d.active.card ∨ d.td.max = 1 ∨ d.runCount = 1) :
    ∃ rs : List Result, rs.length = d.runCount ∧
      Dealer.nextResult env d = (true, { d with results := some rs, E := 0 }) ∧
      ∀ k : Nat, nrN env (k + 1) d
        = { d with results := some rs, E := min (k : Int) (d.runCount : Int) } := by
  obtain ⟨rs, hlen, hfirst⟩ := nr_first env d hres hE hrc ha hx
  refine ⟨rs, hlen, hfirst, ?_⟩
  intro k
  induction k with
  | zero =>
    show (Dealer.nextResult env (nrN env 0 d)).2 = _
    rw [show nrN env 0 d = d from rfl, hfirst]
    show ({ d with results := some rs, E := 0 } : Dealer) = _
    rw [show min (((0 : Nat) : Int)) ((d.runCount : Nat) : Int) = 0 from by omega]
  | succ k ih =>
    show (Dealer.nextResult env (nrN env (k + 1) d)).2 = _
    rw [ih, nr_step env _ rs rfl]
    by_cases hc : ((d.runCount : Nat) : Int) ≤ min ((k : Nat) : Int) ((d.runCount : Nat) : Int)
    · rw [if_pos hc]
      show ({ d with results := some rs, E := min ((k : Nat) : Int) ((d.runCount : Nat) : Int) } : Dealer) = _
      rw [show min ((k : Nat) : Int) ((d.runCount : Nat) : Int)
            = min (((k + 1 : Nat)) : Int) ((d.runCount : Nat) : Int) from by push_cast; omega]
    · rw [if_neg hc]
      show ({ d with results := some rs, E := min ((k : Nat) : Int) ((d.runCount : Nat) : Int) + 1 } : Dealer) = _
      rw [show min ((k : Nat) : Int) ((d.runCount : Nat) : Int) + 1
            = min (((k + 1 : Nat)) : Int) ((d.runCount : Nat) : Int) from by push_cast at hc ⊢; omega]

/-- Claim C10 (amended): for every pre-iteration dealer with at least one
active position or a participant cap of one — and additionally more than
one active position, or a cap of one, or a single run (otherwise no results
are ever computed; see the counterexample) — repeated `NextResult` calls
return `true` exactly `RunCount` times and `false` on every later call, the
result cursor never exceeds `RunCount`, and after each of the `true` calls
`Result` returns the cursor's index and an available result inside the
computed list. -/
theorem c10_amended (env : EvalEnv) (d : Dealer)
    (hres : d.results = none) (hE : d.E = -1)
    (hlen : d.runs.length = d.runCount) (hrc : 1 ≤ d.runCount)
    (ha : 1 ≤ d.active.card ∨ d.td.max = 1)
    (hx : 2 ≤ d.active.card ∨ d.td.max = 1 ∨ d.runCount = 1) :
    (∀ k : Nat, (Dealer.nextResult env (nrN env k d)).1 = decide (k < d.runCount)) ∧
    (∀ k : Nat, (nrN env k d).E ≤ (d.runCount : Int)) ∧
    (∀ k : Nat, k < d.runCount →
      (Dealer.result (nrN env (k + 1) d)).1 = (k : Int) ∧
      ((Dealer.result (nrN env (k + 1) d)).2).isSome = true) := by
  obtain ⟨rs, hlen2, hfirst, hclosed⟩ := nrN_closed env d hres hE hrc ha hx
  refine ⟨?_, ?_, ?_⟩
  · intro k
    cases k with
    | zero =>
      rw [show nrN env 0 d = d from rfl, hfirst]
      exact (decide_eq_true (by omega)).symm
    | succ k =>
      rw [hclosed k, nr_step env _ rs rfl]
      by_cases hc : ((d.runCount : Nat) : Int) ≤ min ((k : Nat) : Int) ((d.runCount : Nat) : Int)
      · rw [if_pos hc]
        show (false : Bool) = _
        exact (decide_eq_false (by omega)).symm
      · rw [if_neg hc]
        show decide (min ((k : Nat) : Int) ((d.runCount : Nat) : Int) + 1 < ((d.runCount : Nat) : Int)) = _
        rw [decide_eq_decide]
        push_cast at hc ⊢
        omega
  · intro k
    cases k with
    | zero =>
      rw [show nrN env 0 d = d from rfl, hE]
      omega
    | succ k =>
      rw [hclosed k]
      show min ((k : Nat) : Int) ((d.runCount : Nat) : Int) ≤ _
      omega
  · intro k hk
    rw [hclosed k]
    unfold Dealer.result
    have hmin : min ((k : Nat) : Int) ((d.runCount : Nat) : Int) = ((k : Nat) : Int) := by omega
    rw [if_pos (show (0 : Int) ≤ min ((k : Nat) : Int) ((d.runCount : Nat) : Int) ∧
          min ((k : Nat) : Int) ((d.runCount : Nat) : Int) < ((d.runCount : Nat) : Int)
        from ⟨by omega, by omega⟩)]
    constructor
    · show min ((k : Nat) : Int) ((d.runCount : Nat) : Int) = ((k : Nat) : Int)
      exact hmin
    · show (((some rs).getD []).get?
          (min ((k : Nat) : Int) ((d.runCount : Nat) : Int)).toNat).isSome = true
      rw [hmin]
      simp only [Option.getD_some, Int.toNat_natCast]
      rw [List.get?_eq_getElem?, List.getElem?_eq_getElem (show k < rs.length by omega)]
      rfl

/-! ### Success and deck-preservation of the dealing pipeline -/

/-- Under the usable-length invariant a draw always succeeds. -/
theorem draw_isSome (d : Deck) (c : Int) (h : d.L ≤ d.V.length) :
    ∃ p : List Card × Deck, d.draw c = some p := by
  unfold Deck.draw
  split
  · exact ⟨([], d), rfl⟩
  · rw [drawLoop_eq _ _ _ (by omega : min (d.I + c.toNat) d.L ≤ d.V.length)]
    exact ⟨_, rfl⟩

/-- Under the usable-length invariant a burn succeeds and leaves the card
sequence and the limit unchanged. -/
theorem burn_ok (n : Nat) (run : Run) (deck : Deck) (h : deck.L ≤ deck.V.length) :
    ∃ rd : Run × Deck, burn n run deck = some rd ∧ rd.2.V = deck.V ∧ rd.2.L = deck.L := by
  unfold burn
  split
  · obtain ⟨⟨cs, d2⟩, hp⟩ := draw_isSome deck (n : Int) h
    obtain ⟨hV, hL⟩ := Deck.draw_V_L deck (n : Int) cs d2 hp
    rw [hp]
    exact ⟨_, rfl, hV, hL⟩
  · exact ⟨(run, deck), rfl, rfl, rfl⟩

/-- Under the usable-length invariant a pocket row succeeds and leaves the
card sequence and the limit unchanged. -/
theorem dealRowN_ok :
    ∀ (n i : Nat) (run : Run) (deck : Deck), deck.L ≤ deck.V.length →
      ∃ rd : Run × Deck, dealRowN i n (run, deck) = some rd ∧
        rd.2.V = deck.V ∧ rd.2.L = deck.L := by
  intro n
  induction n with
  | zero =>
    intro i run deck _
    exact ⟨(run, deck), rfl, rfl, rfl⟩
  | succ n ih =>
    intro i run deck h
    obtain ⟨⟨cs, d2⟩, hp⟩ := draw_isSome deck 1 h
    obtain ⟨hV, hL⟩ := Deck.draw_V_L deck 1 cs d2 hp
    obtain ⟨rd, hrd, hV2, hL2⟩ :=
      ih (i + 1) { run with pockets := run.pockets.set i (run.pockets.getD i [] ++ cs) } d2
        (by rw [hL, hV]; exact h)
    refine ⟨rd, ?_, hV2.trans hV, hL2.trans hL⟩
    show (deck.draw 1).bind _ = some rd
    rw [hp, Option.some_bind]
    exact hrd

/-- Under the usable-length invariant the pocket rounds succeed and leave
the card sequence and the limit unchanged. -/
theorem dealPockets_ok :
    ∀ (p count : Nat) (run : Run) (deck : Deck), deck.L ≤ deck.V.length →
      ∃ rd : Run × Deck, dealPockets count p (run, deck) = some rd ∧
        rd.2.V = deck.V ∧ rd.2.L = deck.L := by
  intro p
  induction p with
  | zero =>
    intro count run deck _
    exact ⟨(run, deck), rfl, rfl, rfl⟩
  | succ p ih =>
    intro count run deck h
    obtain ⟨⟨r1, d1⟩, h1, hV1, hL1⟩ := dealRowN_ok count 0 run deck h
    obtain ⟨rd, h2, hV2, hL2⟩ := ih count r1 d1 (by rw [hL1, hV1]; exact h)
    refine ⟨rd, ?_, hV2.trans hV1, hL2.trans hL1⟩
    show (dealRow count (run, deck)).bind (dealPockets count p) = some rd
    rw [show dealRow count (run, deck) = some (r1, d1) from h1, Option.some_bind]
    exact h2

/-- Under the usable-length invariant the pocket section of a deal succeeds
and leaves the card sequence and the limit unchanged. -/
theorem dealStreetPockets_ok (count : Nat) (desc : StreetDesc) (run : Run) (deck : Deck)
    (h : deck.L ≤ deck.V.length) :
    ∃ rd : Run × Deck, dealStreetPockets count desc run deck = some rd ∧
      rd.2.V = deck.V ∧ rd.2.L = deck.L := by
  unfold dealStreetPockets
  split
  · obtain ⟨⟨r1, d1⟩, h1, hV1, hL1⟩ := burn_ok desc.pocketDiscard run deck h
    obtain ⟨rd, h2, hV2, hL2⟩ := dealPockets_ok desc.pocket count r1 d1 (by rw [hL1, hV1]; exact h)
    refine ⟨rd, ?_, hV2.trans hV1, hL2.trans hL1⟩
    rw [h1, Option.some_bind]
    exact h2
  · exact ⟨(run, deck), rfl, rfl, rfl⟩

/-- Under the usable-length invariant the board section of a deal succeeds
and leaves the card sequence and the limit unchanged. -/
theorem dealStreetBoard_ok (td : TypeDesc) (desc : StreetDesc) (run : Run) (deck : Deck)
    (h : deck.L ≤ deck.V.length) :
    ∃ rd : Run × Deck, dealStreetBoard td desc run deck = some rd ∧
      rd.2.V = deck.V ∧ rd.2.L = deck.L := by
  unfold dealStreetBoard
  split
  · obtain ⟨⟨r1, d1⟩, h1, hV1, hL1⟩ := burn_ok desc.boardDiscard run deck h
    obtain ⟨⟨cs, d2⟩, hp⟩ := draw_isSome d1 (desc.board : Int) (by rw [hL1, hV1]; exact h)
    obtain ⟨hV2, hL2⟩ := Deck.draw_V_L d1 (desc.board : Int) cs d2 hp
    rw [h1, Option.some_bind]
    simp only []
    rw [hp, Option.some_bind]
    simp only []
    split
    · obtain ⟨⟨r3, d3⟩, h3, hV3, hL3⟩ :=
        burn_ok desc.boardDiscard { r1 with hi := r1.hi ++ cs } d2
          (by rw [hL2.trans hL1, hV2.trans hV1]; exact h)
      obtain ⟨⟨cs4, d4⟩, hp4⟩ :=
        draw_isSome d3 (desc.board : Int)
          (by rw [hL3.trans (hL2.trans hL1), hV3.trans (hV2.trans hV1)]; exact h)
      obtain ⟨hV4, hL4⟩ := Deck.draw_V_L d3 (desc.board : Int) cs4 d4 hp4
      rw [h3, Option.some_bind, hp4]
      exact ⟨_, rfl, hV4.trans (hV3.trans (hV2.trans hV1)),
        hL4.trans (hL3.trans (hL2.trans hL1))⟩
    · exact ⟨_, rfl, hV2.trans hV1, hL2.trans hL1⟩
  · exact ⟨(run, deck), rfl, rfl, rfl⟩

/-- Under the usable-length invariant a full street deal succeeds and
leaves the card sequence and the limit unchanged. -/
theorem dealStreet_ok (td : TypeDesc) (count : Nat) (desc : StreetDesc) (run : Run) (deck : Deck)
    (h : deck.L ≤ deck.V.length) :
    ∃ rd : Run × Deck, dealStreet td count desc run deck = some rd ∧
      rd.2.V = deck.V ∧ rd.2.L = deck.L := by
  obtain ⟨⟨r1, d1⟩, h1, hV1, hL1⟩ := dealStreetPockets_ok count desc run deck h
  obtain ⟨rd, h2, hV2, hL2⟩ := dealStreetBoard_ok td desc r1 d1 (by rw [hL1, hV1]; exact h)
  refine ⟨rd, ?_, hV2.trans hV1, hL2.trans hL1⟩
  unfold dealStreet
  rw [h1, Option.some_bind]
  exact h2

/-- Under the usable-length invariant a fold of street deals succeeds and
leaves the card sequence and the limit unchanged. -/
theorem dealFold_ok (td : TypeDesc) (count : Nat) :
    ∀ (ss : List StreetDesc) (run : Run) (deck : Deck), deck.L ≤ deck.V.length →
      ∃ rd : Run × Deck, dealFold td count ss (run, deck) = some rd ∧
        rd.2.V = deck.V ∧ rd.2.L = deck.L := by
  intro ss
  induction ss with
  | nil =>
    intro run deck _
    exact ⟨(run, deck), rfl, rfl, rfl⟩
  | cons s ss ih =>
    intro run deck h
    obtain ⟨⟨r1, d1⟩, h1, hV1, hL1⟩ := dealStreet_ok td count s run deck h
    obtain ⟨rd, h2, hV2, hL2⟩ := ih r1 d1 (by rw [hL1, hV1]; exact h)
    refine ⟨rd, ?_, hV2.trans hV1, hL2.trans hL1⟩
    show (dealStreet td count s run deck).bind (dealFold td count ss) = some rd
    rw [h1, Option.some_bind]
    exact h2

/-- `dealFold` distributes over list concatenation. -/
theorem dealFold_append (td : TypeDesc) (count : Nat) :
    ∀ (l1 l2 : List StreetDesc) (rd : Run × Deck),
      dealFold td count (l1 ++ l2) rd = (dealFold td count l1 rd).bind (dealFold td count l2) := by
  intro l1
  induction l1 with
  | nil =>
    intro l2 rd
    rfl
  | cons s l1 ih =>
    intro l2 rd
    show (dealStreet td count s rd.1 rd.2).bind (dealFold td count (l1 ++ l2))
      = ((dealStreet td count s rd.1 rd.2).bind (dealFold td count l1)).bind (dealFold td count l2)
    cases hds : dealStreet td count s rd.1 rd.2 with
    | none => rfl
    | some rd2 =>
      rw [Option.some_bind, Option.some_bind, ih l2 rd2]

/-! ### Claim C1: the Next iteration on a fresh single-run dealer -/

/-- One mid-hand `Next` step on a fresh single-run dealer: with street `k`
still ahead, the call deals street `k` into the sole run and returns
`true`. -/
theorem c1_step (td : TypeDesc) (deck : Deck) (count : Nat)
    (hact : td.max = 1 ∨ 2 ≤ count)
    (k : Nat) (hkn : k < td.streets.length)
    (desc : StreetDesc) (hget : td.streets.get? k = some desc)
    (rk r2 : Run) (ek e2 : Deck)
    (hds : dealStreet td count desc rk ek = some (r2, e2)) :
    Dealer.next { newDealer td deck count with
        S := (k : Int) - 1, R := if k = 0 then -1 else 0, runs := [rk], deck := ek }
      = some (true, { newDealer td deck count with
        S := (k : Int), R := 0, runs := [r2], deck := e2 }) := by
  unfold Dealer.next newDealer
  simp only []
  by_cases hk0 : k = 0
  · subst hk0
    simp only [Nat.cast_zero, zero_sub, reduceIte, and_self]
    rw [if_neg ?hg1]
    case hg1 =>
      rintro (⟨h1, -⟩ | h2)
      · omega
      · unfold Dealer.hasActive at h2
        rw [decide_eq_false_iff_not] at h2
        apply h2
        refine ⟨(by decide : (0 : Int) ≤ 0), ?_⟩
        rcases hact with h | h
        · exact Or.inl h
        · right
          show 1 < (Finset.range count).card
          rw [Finset.card_range]
          omega
    rw [if_neg ?hg2]
    case hg2 =>
      rintro ⟨h1, -⟩
      omega
    simp only [Int.toNat_zero, hget, Option.some_bind, List.get?_cons_zero, hds,
      Option.map_some', List.set_cons_zero]
    congr 1
    congr 1
    exact decide_eq_true (Or.inl (by exact_mod_cast hkn))
  · simp only [if_neg hk0]
    have hc1 : ¬ ((k : Int) - 1 = -1 ∧ (0 : Int) = -1) := by omega
    simp only [if_neg hc1]
    have hS : (k : Int) - 1 + 1 = (k : Int) := by omega
    simp only [hS]
    rw [if_neg ?hg3]
    case hg3 =>
      rintro (⟨h1, -⟩ | h2)
      · omega
      · unfold Dealer.hasActive at h2
        rw [decide_eq_false_iff_not] at h2
        apply h2
        refine ⟨(by exact_mod_cast Int.natCast_nonneg k : (0 : Int) ≤ (k : Int)), ?_⟩
        rcases hact with h | h
        · exact Or.inl h
        · right
          show 1 < (Finset.range count).card
          rw [Finset.card_range]
          omega
    rw [if_neg ?hg4]
    case hg4 =>
      rintro ⟨h1, -⟩
      omega
    simp only [Int.toNat_natCast, Int.toNat_zero, hget, Option.some_bind, List.get?_cons_zero,
      hds, Option.map_some', List.set_cons_zero]
    congr 1
    congr 1
    exact decide_eq_true (Or.inl (by exact_mod_cast hkn))

/-- The terminal `Next` call on a fresh single-run dealer: every street
already dealt, the call returns `false` and touches neither the runs nor
the deck. -/
theorem c1_term (td : TypeDesc) (deck : Deck) (count : Nat) (rn : Run) (en : Deck) :
    ∃ dE : Dealer,
      Dealer.next { newDealer td deck count with
          S := (td.streets.length : Int) - 1,
          R := if td.streets.length = 0 then -1 else 0, runs := [rn], deck := en }
        = some (false, dE) ∧ dE.runs = [rn] ∧ dE.deck = en := by
  unfold Dealer.next newDealer
  simp only []
  by_cases hn : td.streets.length = 0
  · simp only [hn, Nat.cast_zero, zero_sub, reduceIte, and_self]
    rw [if_pos (Or.inl ⟨(by decide : ((0 : Nat) : Int) ≤ 0),
      (by decide : (0 : Int) = ((1 : Nat) : Int) - 1)⟩)]
    exact ⟨_, rfl, rfl, rfl⟩
  · simp only [if_neg hn]
    have hc1 : ¬ ((td.streets.length : Int) - 1 = -1 ∧ (0 : Int) = -1) := by omega
    simp only [if_neg hc1]
    have hS : (td.streets.length : Int) - 1 + 1 = (td.streets.length : Int) := by omega
    simp only [hS]
    rw [if_pos (Or.inl ⟨le_refl ((td.streets.length : Nat) : Int),
      (by decide : (0 : Int) = ((1 : Nat) : Int) - 1)⟩)]
    exact ⟨_, rfl, rfl, rfl⟩

/-- The `Next` iteration on a fresh single-run dealer reaches, after `k`
calls, exactly the state with streets `0, …, k-1` dealt in order. -/
theorem c1_nextN (td : TypeDesc) (deck : Deck) (count : Nat)
    (hdk : deck.L ≤ deck.V.length) (hact : td.max = 1 ∨ 2 ≤ count) :
    ∀ k, k ≤ td.streets.length →
      nextN k (newDealer td deck count) = c1State td deck count k := by
  intro k
  induction k with
  | zero =>
    intro _
    rfl
  | succ k ih =>
    intro hk1
    have hkn : k < td.streets.length := by omega
    have ihk := ih (by omega)
    obtain ⟨⟨rk, ek⟩, hfold, hV, hL⟩ := dealFold_ok td count (td.streets.take k) (newRun count) deck hdk
    cases hget : td.streets.get? k with
    | none =>
      have := List.get?_eq_none.mp hget
      omega
    | some desc =>
      obtain ⟨⟨r2, e2⟩, hds, hV2, hL2⟩ := dealStreet_ok td count desc rk ek (by rw [hL, hV]; exact hdk)
      have hck : c1State td deck count k = some { newDealer td deck count with
          S := (k : Int) - 1, R := if k = 0 then -1 else 0, runs := [rk], deck := ek } := by
        unfold c1State
        rw [hfold]
        rfl
      have hfold2 : dealFold td count (td.streets.take (k + 1)) (newRun count, deck)
          = some (r2, e2) := by
        rw [List.take_succ, show td.streets[k]? = some desc from by
          rw [← List.get?_eq_getElem?]; exact hget]
        rw [Option.toList_some, dealFold_append, hfold, Option.some_bind]
        show (dealStreet td count desc rk ek).bind (dealFold td count []) = some (r2, e2)
        rw [hds, Option.some_bind]
        rfl
      have hnext := c1_step td deck count hact k hkn desc hget rk r2 ek e2 hds
      show (nextN k (newDealer td deck count)).bind
          (fun d2 => (Dealer.next d2).map Prod.snd) = c1State td deck count (k + 1)
      rw [ihk, hck, Option.some_bind, hnext]
      unfold c1State
      rw [hfold2]
      simp only [Option.map_some']
      rw [show ((k + 1 : Nat) : Int) - 1 = (k : Int) from by push_cast; omega]
      rw [if_neg (Nat.succ_ne_zero k)]

/-- Claim C1 (amended): for a dealer over a single run with no positions
deactivated, a deck satisfying the usable-length invariant of the data
model, and at least two positions (or a variant whose participant cap is
one — otherwise the machine halts before dealing anything; see the
counterexample): repeated `Next` calls deal every street of the variant
exactly once, in street order, each such call returning `true`, and the
one terminal call returns `false` and deals nothing. -/
theorem c1_amended (td : TypeDesc) (deck : Deck) (count : Nat)
    (hdk : deck.L ≤ deck.V.length) (hact : td.max = 1 ∨ 2 ≤ count) :
    (∀ k, k ≤ td.streets.length →
      nextN k (newDealer td deck count) = c1State td deck count k) ∧
    (∀ k, k < td.streets.length →
      ((nextN k (newDealer td deck count)).bind
        fun d2 => (Dealer.next d2).map Prod.fst) = some true) ∧
    (∃ dT dE : Dealer,
      nextN td.streets.length (newDealer td deck count) = some dT ∧
      Dealer.next dT = some (false, dE) ∧ dE.runs = dT.runs ∧ dE.deck = dT.deck) := by
  refine ⟨c1_nextN td deck count hdk hact, ?_, ?_⟩
  · intro k hk
    obtain ⟨⟨rk, ek⟩, hfold, hV, hL⟩ :=
      dealFold_ok td count (td.streets.take k) (newRun count) deck hdk
    cases hget : td.streets.get? k with
    | none =>
      have := List.get?_eq_none.mp hget
      omega
    | some desc =>
      obtain ⟨⟨r2, e2⟩, hds, hV2, hL2⟩ :=
        dealStreet_ok td count desc rk ek (by rw [hL, hV]; exact hdk)
      have hck : c1State td deck count k = some { newDealer td deck count with
          S := (k : Int) - 1, R := if k = 0 then -1 else 0, runs := [rk], deck := ek } := by
        unfold c1State
        rw [hfold]
        rfl
      rw [c1_nextN td deck count hdk hact k (le_of_lt hk), hck, Option.some_bind,
        c1_step td deck count hact k hk desc hget rk r2 ek e2 hds]
      rfl
  · obtain ⟨⟨rn, en⟩, hfold, hV, hL⟩ :=
      dealFold_ok td count (td.streets.take td.streets.length) (newRun count) deck hdk
    have hck : c1State td deck count td.streets.length = some { newDealer td deck count with
        S := (td.streets.length : Int) - 1,
        R := if td.streets.length = 0 then -1 else 0, runs := [rn], deck := en } := by
      unfold c1State
      rw [hfold]
      rfl
    obtain ⟨dE, hterm, hruns, hdeck⟩ := c1_term td deck count rn en
    refine ⟨_, dE, ?_, hterm, hruns, hdeck⟩
    rw [c1_nextN td deck count hdk hact td.streets.length (le_refl _), hck]

/-- Witness for C1 (amended) at a concrete two-street dealer. -/
theorem c1_amended_witness :
    (deck12.L ≤ deck12.V.length ∧ (c1wtd.max = 1 ∨ 2 ≤ 2)) ∧
    nextN 2 (newDealer c1wtd deck12 2) = c1State c1wtd deck12 2 2 ∧
    ((nextN 0 (newDealer c1wtd deck12 2)).bind
      fun d2 => (Dealer.next d2).map Prod.fst) = some true := by
  have h := c1_amended c1wtd deck12 2 (by decide) (by decide)
  exact ⟨⟨by decide, by decide⟩, h.1 2 (by decide), h.2.1 0 (by decide)⟩

/-- Witness for C10 (amended) at a concrete fresh dealer. -/
theorem c10_amended_witness :
    (c10w0.results = none ∧ c10w0.E = -1 ∧ c10w0.runs.length = c10w0.runCount ∧
      1 ≤ c10w0.runCount ∧ (1 ≤ c10w0.active.card ∨ c10w0.td.max = 1) ∧
      (2 ≤ c10w0.active.card ∨ c10w0.td.max = 1 ∨ c10w0.runCount = 1)) ∧
    (Dealer.nextResult envZero (nrN envZero 0 c10w0)).1 = decide (0 < c10w0.runCount) ∧
    ((Dealer.result (nrN envZero 1 c10w0)).1 = ((0 : Nat) : Int) ∧
      ((Dealer.result (nrN envZero 1 c10w0)).2).isSome = true) := by
  have h := c10_amended envZero c10w0 (by decide) (by decide) (by decide) (by decide)
    (by decide) (by decide)
  exact ⟨⟨by decide, by decide, by decide, by decide, by decide, by decide⟩,
    h.1 0, h.2.2 0 (by decide)⟩

end Cardrank
